import Mathlib

/-!
Verification development for the tensorscript type-inference kernel.

Shallow embeddings of:
 - the diagnostic-accumulating unifier of src/type_reconstruction/unifier.rs
   (namespace U);
 - the TypeId-keyed substitution of src/type_reconstruction/subst.rs
   (namespace TR);
 - the Type algebra of trsc/src/typing/types.rs (namespace Typing).

Rust panics are modelled as error values (PanicKind), recursion of the
unifier is bounded by an explicit fuel parameter (None = fuel exhausted),
and machine integers are modelled by Nat/Int (no arithmetic overflow is
exercised by any code path embedded here).
-/

/-- A source span: a (start, end) byte pair.  Spans are diagnostic metadata. -/
abbrev Span : Type := Nat × Nat

/-- The dummy span produced by CSpan::fresh_span. -/
def spZ : Span := (0, 0)

/-- Type-variable identifiers (typed_ast::type_env::TypeId). -/
abbrev TypeId : Type := Nat

/-- Rust panic sites of the embedded code, modelled as error values. -/
inductive PanicKind where
  | circularType
  | suppliedParameterIncorrect
  | moduleNameMismatch
  | unhandledConstraint
  | indexOutOfBounds
deriving DecidableEq

namespace U

/--
typed_ast::Type as matched by src/type_reconstruction/unifier.rs: every
variant carries a span, FUN carries parameter and return types only.
-/
inductive Ty where
  | Unit (s : Span)
  | INT (s : Span)
  | FLOAT (s : Span)
  | BOOL (s : Span)
  | UnresolvedModuleFun (a b c : String) (s : Span)
  | VAR (id : TypeId) (s : Span)
  | DIM (id : TypeId) (s : Span)
  | Module (name : String) (inner : Option Ty) (s : Span)
  | FnArgs (args : List Ty) (s : Span)
  | FnArg (name : Option String) (ty : Ty) (s : Span)
  | ResolvedDim (i : Int) (s : Span)
  | FUN (p r : Ty) (s : Span)
  | TSR (dims : List Ty) (s : Span)

/-- Equality constraint (type_reconstruction::constraint::Equals). -/
structure Equals where
  a : Ty
  b : Ty

/-- Unifier diagnostics: unifier.rs defines exactly one variant. -/
inductive TypeError where
  | DimensionMismatch (a b : Ty)

/--
The substitution used by unifier.rs.  The source keys entries by the node
VAR(tvar, fresh_span) in a HashMap whose key equality ignores spans, so the
mapping is keyed by the TypeId alone; we store it as an association list.
-/
abbrev Substitution : Type := List (TypeId × Ty)

/-- Type::as_num (Some for ResolvedDim, None otherwise). -/
def asNum : Ty → Option Int
  | .ResolvedDim i _ => some i
  | _ => none

/-- occurs of unifier.rs: recurses through FUN only, detects VAR only. -/
def occurs (tvar : TypeId) : Ty → Bool
  | .FUN p r _ => occurs tvar p || occurs tvar r
  | .VAR tvar2 _ => tvar == tvar2
  | _ => false

/-- Type::with_span: same structure with the top-level span replaced. -/
def withSpan : Ty → Span → Ty
  | .Unit _, sp => .Unit sp
  | .INT _, sp => .INT sp
  | .FLOAT _, sp => .FLOAT sp
  | .BOOL _, sp => .BOOL sp
  | .UnresolvedModuleFun a b c _, sp => .UnresolvedModuleFun a b c sp
  | .VAR a _, sp => .VAR a sp
  | .DIM a _, sp => .DIM a sp
  | .Module n t _, sp => .Module n t sp
  | .FnArgs ts _, sp => .FnArgs ts sp
  | .FnArg n t _, sp => .FnArg n t sp
  | .ResolvedDim i _, sp => .ResolvedDim i sp
  | .FUN p r _, sp => .FUN p r sp
  | .TSR ds _, sp => .TSR ds sp

mutual
/--
Modelled from the spec: the Type-keyed Substitution implementation used by
unifier.rs is not under src/ (only subst.rs's TypeId-keyed twin is), so
application follows spec section 4.D: rewrite any Var(tvar)/Dim(tvar) with
the replacement re-stamped by with_span at the original span, recursing
through FUN, FnArgs, FnArg, TSR and Module; leaves pass through.
-/
def substituteS (tvar : TypeId) (rep : Ty) : Ty → Ty
  | .VAR t2 s => if t2 == tvar then withSpan rep s else .VAR t2 s
  | .DIM t2 s => if t2 == tvar then withSpan rep s else .DIM t2 s
  | .FUN p r s => .FUN (substituteS tvar rep p) (substituteS tvar rep r) s
  | .FnArgs ts s => .FnArgs (substituteSL tvar rep ts) s
  | .FnArg n t s => .FnArg n (substituteS tvar rep t) s
  | .TSR ds s => .TSR (substituteSL tvar rep ds) s
  | .Module n (some t) s => .Module n (some (substituteS tvar rep t)) s
  | t => t

/-- List part of substituteS. -/
def substituteSL (tvar : TypeId) (rep : Ty) : List Ty → List Ty
  | [] => []
  | t :: ts => substituteS tvar rep t :: substituteSL tvar rep ts
end

/-- Substitution::apply_ty: fold every entry over the type. -/
def applyTy (s : Substitution) (t : Ty) : Ty :=
  s.foldl (fun acc kv => substituteS kv.1 kv.2 acc) t

/-- Substitution::apply_equals on one constraint. -/
def applyEq (s : Substitution) (e : Equals) : Equals :=
  Equals.mk (applyTy s e.a) (applyTy s e.b)

/-- Association-list lookup by TypeId key. -/
def lookupK : Substitution → TypeId → Option Ty
  | [], _ => none
  | kv :: rest, k => if kv.1 == k then some kv.2 else lookupK rest k

/-- HashMap::extend: entries of the second map win on key conflicts. -/
def extendMap (m other : Substitution) : Substitution :=
  m.map (fun kv =>
    match lookupK other kv.1 with
    | some w => (kv.1, w)
    | none => kv) ++
  other.filter (fun kv => (lookupK m kv.1).isNone)

/--
Substitution::compose: rewrite every value of the first substitution
through the second, then extend with the second's entries.
-/
def compose (s1 s2 : Substitution) : Substitution :=
  extendMap (s1.map (fun kv => (kv.1, applyTy s2 kv.2))) s2

/-- Unifier::unify_var of unifier.rs. -/
def unifyVar (tvar : TypeId) (ty : Ty) : Except PanicKind Substitution :=
  match ty with
  | .VAR tvar2 _ => if tvar == tvar2 then .ok [] else .ok [(tvar, ty)]
  | .DIM tvar2 _ => if tvar == tvar2 then .ok [] else .ok [(tvar, ty)]
  | _ => if occurs tvar ty then .error .circularType else .ok [(tvar, ty)]

/-- Result of a fuelled unifier call: none means the fuel ran out. -/
abbrev URes : Type := Option (Except PanicKind (Substitution × List TypeError))

/-- Lift a unify_var result into a unifier result, threading diagnostics. -/
def liftV (r : Except PanicKind Substitution) (errs : List TypeError) : URes :=
  match r with
  | .ok s => some (.ok (s, errs))
  | .error p => some (.error p)

/-- Pairwise zip of two dimension or argument lists into constraints. -/
def zipEq (xs ys : List Ty) : List Equals :=
  List.zipWith Equals.mk xs ys

mutual
/--
Unifier::unify of unifier.rs: solve the first constraint, apply the
resulting substitution to the rest, recurse, and compose.
-/
def unify : Nat → List Equals → List TypeError → URes
  | 0, _, _ => none
  | Nat.succ n, cs, errs =>
    match cs with
    | [] => some (.ok ([], errs))
    | e :: rest =>
      match unifyOne n e errs with
      | none => none
      | some (.error p) => some (.error p)
      | some (.ok (s1, errs1)) =>
        match unify n (rest.map (fun eq => applyEq s1 eq)) errs1 with
        | none => none
        | some (.error p) => some (.error p)
        | some (.ok (s2, errs2)) => some (.ok (compose s1 s2, errs2))

/-- Unifier::unify_one of unifier.rs, arms in source order. -/
def unifyOne : Nat → Equals → List TypeError → URes
  | 0, _, _ => none
  | Nat.succ n, eq, errs =>
    match eq with
    | ⟨.Unit _, .Unit _⟩ => some (.ok ([], errs))
    | ⟨.INT _, .INT _⟩ => some (.ok ([], errs))
    | ⟨.FLOAT _, .FLOAT _⟩ => some (.ok ([], errs))
    | ⟨.BOOL _, .BOOL _⟩ => some (.ok ([], errs))
    | ⟨.INT _, .ResolvedDim _ _⟩ => some (.ok ([], errs))
    | ⟨.ResolvedDim _ _, .INT _⟩ => some (.ok ([], errs))
    | ⟨.ResolvedDim i s1, .ResolvedDim j s2⟩ =>
      if asNum (.ResolvedDim i s1) = asNum (.ResolvedDim j s2) then
        some (.ok ([], errs))
      else
        some (.ok ([], errs ++
          [TypeError.DimensionMismatch (.ResolvedDim i s1) (.ResolvedDim j s2)]))
    | ⟨.VAR tvar _, ty⟩ => liftV (unifyVar tvar ty) errs
    | ⟨ty, .VAR tvar _⟩ => liftV (unifyVar tvar ty) errs
    | ⟨.DIM tvar _, ty⟩ => liftV (unifyVar tvar ty) errs
    | ⟨ty, .DIM tvar _⟩ => liftV (unifyVar tvar ty) errs
    | ⟨.FnArgs v1 _, .FnArgs v2 _⟩ => unify n (zipEq v1 v2) errs
    | ⟨.FnArg (some a) t1 _, .FnArg (some b) t2 _⟩ =>
      if a = b then unify n [Equals.mk t1 t2] errs
      else some (.error .suppliedParameterIncorrect)
    | ⟨.FUN p1 r1 _, .FUN p2 r2 _⟩ =>
      unify n [Equals.mk p1 p2, Equals.mk r1 r2] errs
    | ⟨.TSR d1 _, .TSR d2 _⟩ => unify n (zipEq d1 d2) errs
    | ⟨.Module n1 (some t1) _, .Module n2 (some t2) _⟩ =>
      if n1 = n2 then unify n [Equals.mk t1 t2] errs
      else some (.error .moduleNameMismatch)
    | ⟨.UnresolvedModuleFun _ _ _ _, _⟩ => some (.ok ([], errs))
    | _ => some (.error .unhandledConstraint)
end

/-- Does the type have a VAR or DIM head (the shapes unify_var never occurs-checks)? -/
def headVarDim : Ty → Bool
  | .VAR _ _ => true
  | .DIM _ _ => true
  | _ => false

/--
A Var(v) node reachable from the type through FUN parameter or return
positions only: the positions the source occurs function actually visits.
-/
inductive OccFun (v : TypeId) : Ty → Prop where
  | var (s : Span) : OccFun v (.VAR v s)
  | funL {p r : Ty} {s : Span} : OccFun v p → OccFun v (.FUN p r s)
  | funR {p r : Ty} {s : Span} : OccFun v r → OccFun v (.FUN p r s)

/-- occurs decides exactly reachability of Var(v) through FUN positions. -/
def occurs_iff (v : TypeId) : ∀ t : Ty, (occurs v t = true ↔ OccFun v t)
  | .VAR w s => by
    constructor
    · intro h
      have hv : v = w := by simpa [occurs] using h
      subst hv
      exact OccFun.var s
    · intro h
      cases h
      simp [occurs]
  | .FUN p r s => by
    have ihp := occurs_iff v p
    have ihr := occurs_iff v r
    constructor
    · intro h
      simp only [occurs, Bool.or_eq_true] at h
      rcases h with h1 | h1
      · exact OccFun.funL (ihp.mp h1)
      · exact OccFun.funR (ihr.mp h1)
    · intro h
      cases h with
      | funL h1 => simp [occurs, ihp.mpr h1]
      | funR h1 => simp [occurs, ihr.mpr h1]
  | .Unit s => iff_of_false (by simp [occurs]) (fun h => nomatch h)
  | .INT s => iff_of_false (by simp [occurs]) (fun h => nomatch h)
  | .FLOAT s => iff_of_false (by simp [occurs]) (fun h => nomatch h)
  | .BOOL s => iff_of_false (by simp [occurs]) (fun h => nomatch h)
  | .UnresolvedModuleFun a b c s => iff_of_false (by simp [occurs]) (fun h => nomatch h)
  | .DIM w s => iff_of_false (by simp [occurs]) (fun h => nomatch h)
  | .Module n t s => iff_of_false (by simp [occurs]) (fun h => nomatch h)
  | .FnArgs ts s => iff_of_false (by simp [occurs]) (fun h => nomatch h)
  | .FnArg n t s => iff_of_false (by simp [occurs]) (fun h => nomatch h)
  | .ResolvedDim i s => iff_of_false (by simp [occurs]) (fun h => nomatch h)
  | .TSR ds s => iff_of_false (by simp [occurs]) (fun h => nomatch h)

/-- When the head is not VAR/DIM and occurs fires, unify_var panics. -/
def unifyVar_occ (v : TypeId) (t : Ty) :
    headVarDim t = false → occurs v t = true →
    unifyVar v t = Except.error PanicKind.circularType := by
  cases t <;> intro h1 h2 <;> simp_all [headVarDim, occurs, unifyVar]

end U

/--
Claim C1: for a constraint between two ResolvedDim types, unify_one of
unifier.rs returns the identity substitution in both cases; when the two
extents differ it appends a DimensionMismatch diagnostic carrying both
span-bearing types, and when they agree it adds no diagnostic.  The closed
conjunct shows unification of the remaining constraints continuing past
the mismatch (the later constraint still produces its binding).
-/
theorem claim1_resolved_dim_mismatch_diag :
    (∀ (n : Nat) (i j : Int) (s1 s2 : Span) (errs : List U.TypeError),
      U.unifyOne (n + 1) (U.Equals.mk (U.Ty.ResolvedDim i s1) (U.Ty.ResolvedDim j s2)) errs =
        some (Except.ok ([], if i = j then errs else errs ++
          [U.TypeError.DimensionMismatch (U.Ty.ResolvedDim i s1) (U.Ty.ResolvedDim j s2)]))) ∧
    U.unify 5 [U.Equals.mk (U.Ty.ResolvedDim 3 spZ) (U.Ty.ResolvedDim 4 spZ),
               U.Equals.mk (U.Ty.VAR 1 spZ) (U.Ty.INT spZ)] [] =
      some (Except.ok ([(1, U.Ty.INT spZ)],
        [U.TypeError.DimensionMismatch (U.Ty.ResolvedDim 3 spZ) (U.Ty.ResolvedDim 4 spZ)])) := by
  constructor
  · intro n i j s1 s2 errs
    by_cases h : i = j
    · simp [U.unifyOne, U.asNum, h]
    · simp [U.unifyOne, U.asNum, h]
  · rfl

/--
Claim C2: evaluating unify_one on Equals(Tsr([Dim 1]), Tsr([R 3, R 4])),
whose ranks 1 and 2 differ, yields the binding 1 -> ResolvedDim 3 and an
empty diagnostic list: zip silently truncates the longer dimension list,
no rank check is performed and no RankMismatch diagnostic exists, contrary
to the claim that unification succeeds only on equal ranks.
-/
theorem claim2_rank_mismatch_truncated :
    U.unifyOne 5 (U.Equals.mk (U.Ty.TSR [U.Ty.DIM 1 spZ] spZ)
        (U.Ty.TSR [U.Ty.ResolvedDim 3 spZ, U.Ty.ResolvedDim 4 spZ] spZ)) [] =
      some (Except.ok ([(1, U.Ty.ResolvedDim 3 spZ)], [])) := rfl

/--
Claim C3 (counterexample): Var(1) sits inside the dimension list of
Tsr([Var 1]), so the claimed characterisation demands occurs(1, t) = true
and no binding {1 -> t}; the code returns occurs = false (it never enters
Tsr) and unify_var happily produces the circular binding.
-/
theorem claim3_occurs_counterexample :
    U.occurs 1 (U.Ty.TSR [U.Ty.VAR 1 spZ] spZ) = false ∧
    U.unifyVar 1 (U.Ty.TSR [U.Ty.VAR 1 spZ] spZ) =
      Except.ok [(1, U.Ty.TSR [U.Ty.VAR 1 spZ] spZ)] :=
  ⟨rfl, rfl⟩

/--
Claim C3 (amended): occurs(v, t) returns true iff a Var(v) node is
reachable through FUN parameter/return positions only — Dim(v) nodes and
occurrences under FnArgs, FnArg, Tsr, Tuple or Module are never detected —
and, for t whose head is neither Var nor Dim, unify_var refuses a binding
(it panics with the circular-type error) exactly when that restricted
occurs check fires.
-/
theorem claim3_occurs_amended :
    ∀ (v : TypeId) (t : U.Ty),
      (U.occurs v t = true ↔ U.OccFun v t) ∧
      (U.headVarDim t = false → U.occurs v t = true →
        U.unifyVar v t = Except.error PanicKind.circularType) :=
  fun v t => ⟨U.occurs_iff v t, U.unifyVar_occ v t⟩

/-- Witness for the amended claim C3 at the concrete type Fun(Var 1, Int). -/
theorem claim3_occurs_amended_witness :
    U.unifyVar 1 (U.Ty.FUN (U.Ty.VAR 1 spZ) (U.Ty.INT spZ) spZ) =
      Except.error PanicKind.circularType :=
  (claim3_occurs_amended 1 (U.Ty.FUN (U.Ty.VAR 1 spZ) (U.Ty.INT spZ) spZ)).2 rfl rfl

/--
Claim C7 (counterexample): on FnArg(Some "x", Int) = FnArg(Some "y", Int)
the unifier of unifier.rs panics ("supplied parameter is incorrect!"),
aborting unification; it does not record a ParameterNameMismatch
diagnostic (no such diagnostic variant exists) and does not return the
identity substitution.
-/
theorem claim7_param_name_counterexample :
    U.unifyOne 3 (U.Equals.mk (U.Ty.FnArg (some (r"x")) (U.Ty.INT spZ) spZ)
        (U.Ty.FnArg (some (r"y")) (U.Ty.INT spZ) spZ)) [] =
      some (Except.error PanicKind.suppliedParameterIncorrect) := rfl

/--
Claim C7 (amended): on Equals(FnArg(Some a, t1), FnArg(Some b, t2)) the
unifier equates the inner types t1 and t2 when a == b, and panics (aborts
unification, recording no diagnostic) when a != b.
-/
theorem claim7_param_name_amended :
    ∀ (n : Nat) (a b : String) (t1 t2 : U.Ty) (sA sB : Span) (errs : List U.TypeError),
      U.unifyOne (n + 1) (U.Equals.mk (U.Ty.FnArg (some a) t1 sA) (U.Ty.FnArg (some b) t2 sB)) errs =
        if a = b then U.unify n [U.Equals.mk t1 t2] errs
        else some (Except.error PanicKind.suppliedParameterIncorrect) :=
  fun _ _ _ _ _ _ _ _ => rfl

/--
Claim C9: the unifier's result is not independent of the iteration order
of the constraint container.  The same two-element constraint set
{Var 1 = R 3, Var 1 = R 4}, presented in its two possible iteration
orders, produces different substitutions (1 -> R 3 versus 1 -> R 4) and
different diagnostic contents, so a run whose std HashSet iterates in the
other order produces a different outcome.
-/
theorem claim9_order_dependent :
    U.unify 9 [U.Equals.mk (U.Ty.VAR 1 spZ) (U.Ty.ResolvedDim 3 spZ),
               U.Equals.mk (U.Ty.VAR 1 spZ) (U.Ty.ResolvedDim 4 spZ)] [] =
      some (Except.ok ([(1, U.Ty.ResolvedDim 3 spZ)],
        [U.TypeError.DimensionMismatch (U.Ty.ResolvedDim 3 spZ) (U.Ty.ResolvedDim 4 spZ)])) ∧
    U.unify 9 [U.Equals.mk (U.Ty.VAR 1 spZ) (U.Ty.ResolvedDim 4 spZ),
               U.Equals.mk (U.Ty.VAR 1 spZ) (U.Ty.ResolvedDim 3 spZ)] [] =
      some (Except.ok ([(1, U.Ty.ResolvedDim 4 spZ)],
        [U.TypeError.DimensionMismatch (U.Ty.ResolvedDim 4 spZ) (U.Ty.ResolvedDim 3 spZ)])) ∧
    (U.Ty.ResolvedDim 3 spZ ≠ U.Ty.ResolvedDim 4 spZ) :=
  ⟨rfl, rfl, by simp⟩

namespace TR

/--
typed_ast::Type as matched by src/type_reconstruction/subst.rs: an
unspanned variant algebra.  The enum declaration itself is not under src/;
the variants listed here are exactly those the file's matches name (any
further variant of the original enum falls into panicking catch-alls and
is outside this embedding).
-/
inductive Ty where
  | Unit
  | INT
  | BOOL
  | FLOAT
  | ResolvedDim (i : Int)
  | VAR (id : TypeId)
  | DIM (id : TypeId)
  | FN_ARGS (args : List Ty)
  | FN_ARG (name : Option String) (ty : Ty)
  | FUN (p r : Ty)
  | TSR (dims : List Ty)

mutual
/--
substitute of subst.rs: replace VAR(tvar)/DIM(tvar) by the replacement,
recursing through FUN and FN_ARGS elements; TSR passes through untouched
(its dimension list is never entered).  none models the source's panics:
a standalone FN_ARG and any non-FN_ARG element of an FN_ARGS hit
unimplemented/panic branches.
-/
def substitute : Ty → TypeId → Ty → Option Ty
  | .Unit, _, _ => some .Unit
  | .INT, _, _ => some .INT
  | .BOOL, _, _ => some .BOOL
  | .FLOAT, _, _ => some .FLOAT
  | .ResolvedDim i, _, _ => some (.ResolvedDim i)
  | .VAR tvar2, tvar, rep => if tvar = tvar2 then some rep else some (.VAR tvar2)
  | .DIM tvar2, tvar, rep => if tvar = tvar2 then some rep else some (.DIM tvar2)
  | .FN_ARGS args, tvar, rep => (substituteArgs args tvar rep).map .FN_ARGS
  | .FUN p r, tvar, rep =>
    match substitute p tvar rep, substitute r tvar rep with
    | some p2, some r2 => some (.FUN p2 r2)
    | _, _ => none
  | .TSR ds, _, _ => some (.TSR ds)
  | .FN_ARG _ _, _, _ => none

/-- Element-wise part of substitute over an FN_ARGS vector. -/
def substituteArgs : List Ty → TypeId → Ty → Option (List Ty)
  | [], _, _ => some []
  | .FN_ARG name a :: rest, tvar, rep =>
    match substitute a tvar rep, substituteArgs rest tvar rep with
    | some a2, some rest2 => some (.FN_ARG name a2 :: rest2)
    | _, _ => none
  | _ :: _, _, _ => none
end

/--
Substitution::apply_ty: fold every entry of the map over the type.  The
association list presents the HashMap's entries in one iteration order;
the source leaves that order unspecified, so order-sensitive properties
must hold for every presentation of the same entries.
-/
def applyTy (s : List (TypeId × Ty)) (t : Ty) : Option Ty :=
  s.foldl (fun acc kv => acc.bind (fun u => substitute u kv.1 kv.2)) (some t)

/-- Association-list lookup by key. -/
def lookupK : List (TypeId × Ty) → TypeId → Option Ty
  | [], _ => none
  | kv :: rest, k => if kv.1 = k then some kv.2 else lookupK rest k

/-- HashMap::extend: entries of the second map win on key conflicts. -/
def extendMap (m other : List (TypeId × Ty)) : List (TypeId × Ty) :=
  m.map (fun kv =>
    match lookupK other kv.1 with
    | some w => (kv.1, w)
    | none => kv) ++
  other.filter (fun kv => (lookupK m kv.1).isNone)

/-- Rewrite each value of a substitution through another substitution. -/
def composeVals : List (TypeId × Ty) → List (TypeId × Ty) → Option (List (TypeId × Ty))
  | [], _ => some []
  | kv :: rest, s2 =>
    match applyTy s2 kv.2, composeVals rest s2 with
    | some v2, some rest2 => some ((kv.1, v2) :: rest2)
    | _, _ => none

/--
Substitution::compose of subst.rs: rewrite every value of the first map
through the second, then extend with the second's entries.
-/
def compose (s1 s2 : List (TypeId × Ty)) : Option (List (TypeId × Ty)) :=
  (composeVals s1 s2).map (fun m => extendMap m s2)

mutual
/--
Panic-free shapes for substitute: every FN_ARGS element is an FN_ARG and
no standalone FN_ARG occurs; substitute succeeds on exactly the walks that
stay inside such shapes.
-/
def okT : Ty → Bool
  | .FN_ARGS args => okArgs args
  | .FN_ARG _ _ => false
  | .FUN p r => okT p && okT r
  | _ => true

/-- Panic-free shape for an FN_ARGS vector. -/
def okArgs : List Ty → Bool
  | [] => true
  | .FN_ARG _ a :: rest => okT a && okArgs rest
  | _ :: _ => false
end

mutual
/--
Does VAR k or DIM k occur at a position substitute actually rewrites
(through FUN and FN_ARGS elements; never under TSR)?
-/
def freeInT (k : TypeId) : Ty → Bool
  | .VAR t2 => k = t2
  | .DIM t2 => k = t2
  | .FUN p r => freeInT k p || freeInT k r
  | .FN_ARGS args => freeInArgs k args
  | _ => false

/-- List part of freeInT over an FN_ARGS vector. -/
def freeInArgs (k : TypeId) : List Ty → Bool
  | [] => false
  | .FN_ARG _ a :: rest => freeInT k a || freeInArgs k rest
  | _ :: rest => freeInArgs k rest
end

mutual
/-- On panic-free shapes substitute succeeds and preserves panic-freeness. -/
def subst_total_ok : ∀ (t : Ty) (k : TypeId) (r : Ty), okT t = true → okT r = true →
    ∃ u, substitute t k r = some u ∧ okT u = true
  | .Unit, _, _ => fun _ _ => ⟨.Unit, rfl, rfl⟩
  | .INT, _, _ => fun _ _ => ⟨.INT, rfl, rfl⟩
  | .BOOL, _, _ => fun _ _ => ⟨.BOOL, rfl, rfl⟩
  | .FLOAT, _, _ => fun _ _ => ⟨.FLOAT, rfl, rfl⟩
  | .ResolvedDim i, _, _ => fun _ _ => ⟨.ResolvedDim i, rfl, rfl⟩
  | .VAR t2, k, r => fun _ hr => by
    by_cases h : k = t2
    · exact ⟨r, by simp [substitute, h], hr⟩
    · exact ⟨.VAR t2, by simp [substitute, h], rfl⟩
  | .DIM t2, k, r => fun _ hr => by
    by_cases h : k = t2
    · exact ⟨r, by simp [substitute, h], hr⟩
    · exact ⟨.DIM t2, by simp [substitute, h], rfl⟩
  | .FN_ARGS args, k, r => fun ht hr => by
    obtain ⟨us, h1, h2⟩ := subst_total_okArgs args k r (by simpa [okT] using ht) hr
    exact ⟨.FN_ARGS us, by simp [substitute, h1], by simpa [okT] using h2⟩
  | .FUN p r0, k, r => fun ht hr => by
    simp only [okT, Bool.and_eq_true] at ht
    obtain ⟨p2, hp1, hp2⟩ := subst_total_ok p k r ht.1 hr
    obtain ⟨r2, hr1, hr2⟩ := subst_total_ok r0 k r ht.2 hr
    exact ⟨.FUN p2 r2, by simp [substitute, hp1, hr1], by simp [okT, hp2, hr2]⟩
  | .TSR ds, _, _ => fun _ _ => ⟨.TSR ds, rfl, rfl⟩
  | .FN_ARG n a, _, _ => fun ht _ => Bool.noConfusion ht

/-- List part of subst_total_ok. -/
def subst_total_okArgs : ∀ (args : List Ty) (k : TypeId) (r : Ty),
    okArgs args = true → okT r = true →
    ∃ us, substituteArgs args k r = some us ∧ okArgs us = true
  | [], _, _ => fun _ _ => ⟨[], rfl, rfl⟩
  | t :: rest, k, r => fun h hr => by
    cases t
    case FN_ARG n a =>
      simp only [okArgs, Bool.and_eq_true] at h
      obtain ⟨a2, ha1, ha2⟩ := subst_total_ok a k r h.1 hr
      obtain ⟨rest2, hr1, hr2⟩ := subst_total_okArgs rest k r h.2 hr
      exact ⟨.FN_ARG n a2 :: rest2, by simp [substituteArgs, ha1, hr1],
        by simp [okArgs, ha2, hr2]⟩
    all_goals exact Bool.noConfusion h
end

mutual
/-- Substituting a replacement free of k leaves no rewritable k behind. -/
def subst_free : ∀ (t : Ty) (k : TypeId) (r u : Ty), freeInT k r = false →
    substitute t k r = some u → freeInT k u = false
  | .Unit, k, r, u => fun _ h => by cases Option.some.inj h; rfl
  | .INT, k, r, u => fun _ h => by cases Option.some.inj h; rfl
  | .BOOL, k, r, u => fun _ h => by cases Option.some.inj h; rfl
  | .FLOAT, k, r, u => fun _ h => by cases Option.some.inj h; rfl
  | .ResolvedDim i, k, r, u => fun _ h => by cases Option.some.inj h; rfl
  | .VAR t2, k, r, u => fun hr h => by
    by_cases hk : k = t2
    · simp only [substitute, if_pos hk] at h
      cases Option.some.inj h
      exact hr
    · simp only [substitute, if_neg hk] at h
      cases Option.some.inj h
      simp [freeInT, hk]
  | .DIM t2, k, r, u => fun hr h => by
    by_cases hk : k = t2
    · simp only [substitute, if_pos hk] at h
      cases Option.some.inj h
      exact hr
    · simp only [substitute, if_neg hk] at h
      cases Option.some.inj h
      simp [freeInT, hk]
  | .FN_ARGS args, k, r, u => fun hr h => by
    cases h2 : substituteArgs args k r with
    | none => simp [substitute, h2] at h
    | some us =>
      simp only [substitute, h2, Option.map_some] at h
      cases Option.some.inj h
      simpa [freeInT] using subst_freeArgs args k r us hr h2
  | .FUN p r0, k, r, u => fun hr h => by
    cases hp : substitute p k r with
    | none => simp [substitute, hp] at h
    | some p2 =>
      cases hr0 : substitute r0 k r with
      | none => simp [substitute, hp, hr0] at h
      | some r2 =>
        simp only [substitute, hp, hr0] at h
        cases Option.some.inj h
        simp [freeInT, subst_free p k r p2 hr hp, subst_free r0 k r r2 hr hr0]
  | .TSR ds, k, r, u => fun _ h => by cases Option.some.inj h; rfl
  | .FN_ARG n a, k, r, u => fun _ h => Option.noConfusion h

/-- List part of subst_free. -/
def subst_freeArgs : ∀ (args : List Ty) (k : TypeId) (r : Ty) (us : List Ty),
    freeInT k r = false → substituteArgs args k r = some us → freeInArgs k us = false
  | [], k, r, us => fun _ h => by cases Option.some.inj h; rfl
  | t :: rest, k, r, us => fun hr h => by
    cases t
    case FN_ARG n a =>
      cases ha : substitute a k r with
      | none => simp [substituteArgs, ha] at h
      | some a2 =>
        cases hrest : substituteArgs rest k r with
        | none => simp [substituteArgs, ha, hrest] at h
        | some rest2 =>
          simp only [substituteArgs, ha, hrest] at h
          cases Option.some.inj h
          simp [freeInArgs, subst_free a k r a2 hr ha,
            subst_freeArgs rest k r rest2 hr hrest]
    all_goals exact Option.noConfusion h
end

mutual
/-- Substitution for a variable with no rewritable occurrence is a no-op. -/
def subst_noop : ∀ (u : Ty) (k : TypeId) (w : Ty), okT u = true →
    freeInT k u = false → substitute u k w = some u
  | .Unit, _, _ => fun _ _ => rfl
  | .INT, _, _ => fun _ _ => rfl
  | .BOOL, _, _ => fun _ _ => rfl
  | .FLOAT, _, _ => fun _ _ => rfl
  | .ResolvedDim i, _, _ => fun _ _ => rfl
  | .VAR t2, k, w => fun _ hf => by
    have hk : ¬ k = t2 := by simpa [freeInT] using hf
    simp [substitute, hk]
  | .DIM t2, k, w => fun _ hf => by
    have hk : ¬ k = t2 := by simpa [freeInT] using hf
    simp [substitute, hk]
  | .FN_ARGS args, k, w => fun ho hf => by
    simp [substitute, subst_noopArgs args k w (by simpa [okT] using ho)
      (by simpa [freeInT] using hf)]
  | .FUN p r0, k, w => fun ho hf => by
    simp only [okT, Bool.and_eq_true] at ho
    simp only [freeInT, Bool.or_eq_false_iff] at hf
    simp [substitute, subst_noop p k w ho.1 hf.1, subst_noop r0 k w ho.2 hf.2]
  | .TSR ds, _, _ => fun _ _ => rfl
  | .FN_ARG n a, _, _ => fun ho _ => Bool.noConfusion ho

/-- List part of subst_noop. -/
def subst_noopArgs : ∀ (args : List Ty) (k : TypeId) (w : Ty), okArgs args = true →
    freeInArgs k args = false → substituteArgs args k w = some args
  | [], _, _ => fun _ _ => rfl
  | t :: rest, k, w => fun ho hf => by
    cases t
    case FN_ARG n a =>
      simp only [okArgs, Bool.and_eq_true] at ho
      simp only [freeInArgs, Bool.or_eq_false_iff] at hf
      simp [substituteArgs, subst_noop a k w ho.1 hf.1,
        subst_noopArgs rest k w ho.2 hf.2]
    all_goals exact Bool.noConfusion ho
end

/-- Chain form of substituting twice through a FUN node. -/
def funChainL (b : TypeId) (w : Ty) (p r0 : Ty) (k : TypeId) (x : Ty) :
    (substitute (.FUN p r0) k x).bind (fun u => substitute u b w) =
      match (substitute p k x).bind (fun u => substitute u b w),
            (substitute r0 k x).bind (fun u => substitute u b w) with
      | some p3, some r3 => some (.FUN p3 r3)
      | _, _ => none := by
  cases hp : substitute p k x with
  | none => simp [substitute, hp]
  | some p2 =>
    cases hr : substitute r0 k x with
    | none => simp [substitute, hp, hr]
    | some r2 => simp [substitute, hp, hr]

/-- Chain form of substituting twice through an FN_ARGS node. -/
def argsChainL (b : TypeId) (w : Ty) (args : List Ty) (k : TypeId) (x : Ty) :
    (substitute (.FN_ARGS args) k x).bind (fun u => substitute u b w) =
      ((substituteArgs args k x).bind (fun us => substituteArgs us b w)).map .FN_ARGS := by
  cases h1 : substituteArgs args k x with
  | none => simp [substitute, h1]
  | some us =>
    cases h2 : substituteArgs us b w with
    | none => simp [substitute, h1, h2]
    | some vs => simp [substitute, h1, h2]

/-- Chain form of substituting twice through a cons of an FN_ARGS vector. -/
def consChainL (b : TypeId) (w : Ty) (n : Option String) (aT : Ty) (rest : List Ty)
    (k : TypeId) (x : Ty) :
    (substituteArgs (.FN_ARG n aT :: rest) k x).bind (fun us => substituteArgs us b w) =
      match (substitute aT k x).bind (fun u => substitute u b w),
            (substituteArgs rest k x).bind (fun us => substituteArgs us b w) with
      | some a3, some rest3 => some (.FN_ARG n a3 :: rest3)
      | _, _ => none := by
  cases ha : substitute aT k x with
  | none => simp [substituteArgs, ha]
  | some a2 =>
    cases hrest : substituteArgs rest k x with
    | none => simp [substituteArgs, ha, hrest]
    | some rest2 => simp [substituteArgs, ha, hrest]

mutual
/--
Core commutation: for singleton substitutions with distinct keys, a
panic-free value v, and a panic-free w free of its own key b, rewriting v
through {b -> w} first does not change the two-pass result on any type.
-/
def subst_comm (a b : TypeId) (v w v2 : Ty) (hab : a ≠ b)
    (hw : freeInT b w = false) (hv : okT v = true) (hwo : okT w = true)
    (hv2 : substitute v b w = some v2) :
    ∀ t : Ty, (substitute t a v2).bind (fun u => substitute u b w) =
      (substitute t a v).bind (fun u => substitute u b w)
  | .Unit => rfl
  | .INT => rfl
  | .BOOL => rfl
  | .FLOAT => rfl
  | .ResolvedDim _ => rfl
  | .VAR c => by
    by_cases hc : a = c
    · have hok : okT v2 = true := by
        obtain ⟨u, hu, huok⟩ := subst_total_ok v b w hv hwo
        cases Option.some.inj (hu.symm.trans hv2)
        exact huok
      have hfree : freeInT b v2 = false := subst_free v b w v2 hw hv2
      simp [substitute, hc, subst_noop v2 b w hok hfree, hv2]
    · simp [substitute, hc]
  | .DIM c => by
    by_cases hc : a = c
    · have hok : okT v2 = true := by
        obtain ⟨u, hu, huok⟩ := subst_total_ok v b w hv hwo
        cases Option.some.inj (hu.symm.trans hv2)
        exact huok
      have hfree : freeInT b v2 = false := subst_free v b w v2 hw hv2
      simp [substitute, hc, subst_noop v2 b w hok hfree, hv2]
    · simp [substitute, hc]
  | .FN_ARGS args => by
    rw [argsChainL b w args a v2, argsChainL b w args a v,
      subst_commArgs a b v w v2 hab hw hv hwo hv2 args]
  | .FUN p r0 => by
    rw [funChainL b w p r0 a v2, funChainL b w p r0 a v,
      subst_comm a b v w v2 hab hw hv hwo hv2 p,
      subst_comm a b v w v2 hab hw hv hwo hv2 r0]
  | .TSR ds => rfl
  | .FN_ARG n aT => rfl

/-- List part of subst_comm over an FN_ARGS vector. -/
def subst_commArgs (a b : TypeId) (v w v2 : Ty) (hab : a ≠ b)
    (hw : freeInT b w = false) (hv : okT v = true) (hwo : okT w = true)
    (hv2 : substitute v b w = some v2) :
    ∀ args : List Ty,
      (substituteArgs args a v2).bind (fun us => substituteArgs us b w) =
      (substituteArgs args a v).bind (fun us => substituteArgs us b w)
  | [] => rfl
  | t :: rest => by
    cases t
    case FN_ARG n aT =>
      rw [consChainL b w n aT rest a v2, consChainL b w n aT rest a v,
        subst_comm a b v w v2 hab hw hv hwo hv2 aT,
        subst_commArgs a b v w v2 hab hw hv hwo hv2 rest]
    all_goals rfl
end

mutual
/--
Reverse-order commutation: under the same conditions plus w free of the
other key a, applying the composed entries in the opposite iteration
order ({b -> w} first, then {a -> v2}) also agrees with the two-pass
result, so the law is insensitive to the HashMap's iteration order.
-/
def subst_comm_rev (a b : TypeId) (v w v2 : Ty) (hab : a ≠ b)
    (hw : freeInT b w = false) (hwa : freeInT a w = false)
    (hv : okT v = true) (hwo : okT w = true)
    (hv2 : substitute v b w = some v2) :
    ∀ t : Ty, (substitute t b w).bind (fun u => substitute u a v2) =
      (substitute t a v).bind (fun u => substitute u b w)
  | .Unit => rfl
  | .INT => rfl
  | .BOOL => rfl
  | .FLOAT => rfl
  | .ResolvedDim _ => rfl
  | .VAR c => by
    by_cases hca : a = c
    · have hbc : ¬ b = c := fun h => hab (hca.trans h.symm)
      simp [substitute, hbc, hca, hv2]
    · by_cases hcb : b = c
      · simp [substitute, hcb, hca, subst_noop w a v2 hwo hwa]
      · simp [substitute, hca, hcb]
  | .DIM c => by
    by_cases hca : a = c
    · have hbc : ¬ b = c := fun h => hab (hca.trans h.symm)
      simp [substitute, hbc, hca, hv2]
    · by_cases hcb : b = c
      · simp [substitute, hcb, hca, subst_noop w a v2 hwo hwa]
      · simp [substitute, hca, hcb]
  | .FN_ARGS args => by
    rw [argsChainL a v2 args b w, argsChainL b w args a v,
      subst_comm_revArgs a b v w v2 hab hw hwa hv hwo hv2 args]
  | .FUN p r0 => by
    rw [funChainL a v2 p r0 b w, funChainL b w p r0 a v,
      subst_comm_rev a b v w v2 hab hw hwa hv hwo hv2 p,
      subst_comm_rev a b v w v2 hab hw hwa hv hwo hv2 r0]
  | .TSR _ => rfl
  | .FN_ARG _ _ => rfl

/-- List part of subst_comm_rev over an FN_ARGS vector. -/
def subst_comm_revArgs (a b : TypeId) (v w v2 : Ty) (hab : a ≠ b)
    (hw : freeInT b w = false) (hwa : freeInT a w = false)
    (hv : okT v = true) (hwo : okT w = true)
    (hv2 : substitute v b w = some v2) :
    ∀ args : List Ty,
      (substituteArgs args b w).bind (fun us => substituteArgs us a v2) =
      (substituteArgs args a v).bind (fun us => substituteArgs us b w)
  | [] => rfl
  | t :: rest => by
    cases t
    case FN_ARG n aT =>
      rw [consChainL a v2 n aT rest b w, consChainL b w n aT rest a v,
        subst_comm_rev a b v w v2 hab hw hwa hv hwo hv2 aT,
        subst_comm_revArgs a b v w v2 hab hw hwa hv hwo hv2 rest]
    all_goals rfl
end

end TR

/--
Claim C4 (counterexample): the composition law fails at the concrete
substitutions s1 = {1 -> Int}, s2 = {1 -> Float} and t = Var 1: composing
lets s2 win the key conflict, so the composed map sends Var 1 to Float,
while applying s1 then s2 sends it to Int.
-/
theorem claim4_compose_counterexample :
    (TR.compose [(1, TR.Ty.INT)] [(1, TR.Ty.FLOAT)]).bind
        (fun s => TR.applyTy s (TR.Ty.VAR 1)) = some TR.Ty.FLOAT ∧
    (TR.applyTy [(1, TR.Ty.INT)] (TR.Ty.VAR 1)).bind
        (fun u => TR.applyTy [(1, TR.Ty.FLOAT)] u) = some TR.Ty.INT ∧
    (some TR.Ty.FLOAT ≠ some TR.Ty.INT) :=
  ⟨rfl, rfl, by simp⟩

/--
Claim C4 (amended): the composition law
compose(s1, s2).apply_ty(t) = s2.apply_ty(s1.apply_ty(t)) does not hold
for all substitutions (key conflicts and cascading entries break it); it
does hold for singleton substitutions s1 = {a -> v}, s2 = {b -> w} with
distinct keys, when neither key's Var/Dim occurs at a rewritable position
of w and v and w are panic-free shapes, panics being compared in the
Option monad.  The source folds the composed HashMap in an unspecified
order, so the law is proved for both iteration orders of the two-entry
composed map (the list and its reverse).
-/
theorem claim4_compose_amended (a b : TypeId) (v w t : TR.Ty) (hab : a ≠ b)
    (hw : TR.freeInT b w = false) (hwa : TR.freeInT a w = false)
    (hv : TR.okT v = true) (hwo : TR.okT w = true) :
    ((TR.compose [(a, v)] [(b, w)]).bind (fun s => TR.applyTy s t) =
      (TR.applyTy [(a, v)] t).bind (fun u => TR.applyTy [(b, w)] u)) ∧
    ((TR.compose [(a, v)] [(b, w)]).bind (fun s => TR.applyTy s.reverse t) =
      (TR.applyTy [(a, v)] t).bind (fun u => TR.applyTy [(b, w)] u)) := by
  obtain ⟨v2, hv2, _⟩ := TR.subst_total_ok v b w hv hwo
  have hba : ¬ b = a := fun h => hab h.symm
  have hcomp : TR.compose [(a, v)] [(b, w)] = some [(a, v2), (b, w)] := by
    simp [TR.compose, TR.composeVals, TR.applyTy, hv2, TR.extendMap, TR.lookupK, hab, hba]
  have hR : (TR.applyTy [(a, v)] t).bind (fun u => TR.applyTy [(b, w)] u) =
      (TR.substitute t a v).bind (fun u => TR.substitute u b w) := by
    simp [TR.applyTy, List.foldl]
  constructor
  · have hL : TR.applyTy [(a, v2), (b, w)] t =
        (TR.substitute t a v2).bind (fun u => TR.substitute u b w) := by
      simp [TR.applyTy, List.foldl]
    rw [hcomp, hR]
    show TR.applyTy [(a, v2), (b, w)] t = _
    rw [hL]
    exact TR.subst_comm a b v w v2 hab hw hv hwo hv2 t
  · rw [hcomp, hR]
    show (TR.substitute t b w).bind (fun u => TR.substitute u a v2) = _
    exact TR.subst_comm_rev a b v w v2 hab hw hwa hv hwo hv2 t

/-- Witness for the amended claim C4 at s1 = {1 -> Int}, s2 = {2 -> Float}, t = Var 1. -/
theorem claim4_compose_amended_witness :
    ((TR.compose [(1, TR.Ty.INT)] [(2, TR.Ty.FLOAT)]).bind
        (fun s => TR.applyTy s (TR.Ty.VAR 1)) =
      (TR.applyTy [(1, TR.Ty.INT)] (TR.Ty.VAR 1)).bind
        (fun u => TR.applyTy [(2, TR.Ty.FLOAT)] u)) ∧
    ((TR.compose [(1, TR.Ty.INT)] [(2, TR.Ty.FLOAT)]).bind
        (fun s => TR.applyTy s.reverse (TR.Ty.VAR 1)) =
      (TR.applyTy [(1, TR.Ty.INT)] (TR.Ty.VAR 1)).bind
        (fun u => TR.applyTy [(2, TR.Ty.FLOAT)] u)) :=
  claim4_compose_amended 1 2 TR.Ty.INT TR.Ty.FLOAT (TR.Ty.VAR 1)
    (by decide) rfl rfl rfl rfl

namespace Typing

/-- The Type enum of trsc/src/typing/types.rs: every variant carries a span. -/
inductive Ty where
  | Unit (s : Span)
  | INT (s : Span)
  | FLOAT (s : Span)
  | BOOL (s : Span)
  | UnresolvedModuleFun (a b c : String) (s : Span)
  | VAR (id : TypeId) (s : Span)
  | DIM (id : TypeId) (s : Span)
  | Tuple (ts : List Ty) (s : Span)
  | Module (name : String) (inner : Option Ty) (s : Span)
  | FnArgs (ts : List Ty) (s : Span)
  | FnArg (name : Option String) (ty : Ty) (s : Span)
  | ResolvedDim (i : Int) (s : Span)
  | FUN (m n : String) (p r : Ty) (s : Span)
  | TSR (ts : List Ty) (s : Span)

mutual
/--
impl PartialEq for Type, arms in source order: spans are ignored, matching
variants compare payloads recursively, the explicit and final catch-all
arms return false.
-/
def eqTy : Ty → Ty → Bool
  | .Unit _, .Unit _ => true
  | .INT _, .INT _ => true
  | .FLOAT _, .FLOAT _ => true
  | .BOOL _, .BOOL _ => true
  | .VAR a _, .VAR b _ => a == b
  | .DIM b _, .DIM a _ => a == b
  | .Module a1 b1 _, .Module a2 b2 _ => a1 == a2 && eqOpt b1 b2
  | .FnArgs ta _, .FnArgs tb _ => eqList ta tb
  | .Tuple ta _, .Tuple tb _ => eqList ta tb
  | .FnArg n1 t1 _, .FnArg n2 t2 _ => n1 == n2 && eqTy t1 t2
  | .ResolvedDim a _, .ResolvedDim b _ => a == b
  | .FUN m1 n1 p1 r1 _, .FUN m2 n2 p2 r2 _ =>
    eqTy p1 p2 && eqTy r1 r2 && m1 == m2 && n1 == n2
  | .TSR ts1 _, .TSR ts2 _ => eqList ts1 ts2
  | .UnresolvedModuleFun a1 b1 c1 _, .UnresolvedModuleFun a2 b2 c2 _ =>
    a1 == a2 && b1 == b2 && c1 == c2
  | .VAR _ _, _ => false
  | _, .VAR _ _ => false
  | .ResolvedDim _ _, .DIM _ _ => false
  | .DIM _ _, .ResolvedDim _ _ => false
  | _, _ => false

/-- Vec eq: equal length and element-wise Type equality. -/
def eqList : List Ty → List Ty → Bool
  | [], [] => true
  | t :: ts, u :: us => eqTy t u && eqList ts us
  | _, _ => false

/-- `Option Box Type` eq. -/
def eqOpt : Option Ty → Option Ty → Bool
  | none, none => true
  | some t, some u => eqTy t u
  | _, _ => false
end

/-- One value fed to the hasher. -/
inductive HTok where
  | tag (n : Nat)
  | nat (n : Nat)
  | int (i : Int)
  | str (s : String)
  | disc (b : Bool)
  | len (n : Nat)

/-- Hash feed of an Option String payload: discriminant, then contents. -/
def hashOptStr : Option String → List HTok
  | none => [.disc false]
  | some s => [.disc true, .str s]

mutual
/--
impl Hash for Type as the sequence of values fed to the hasher: a variant
tag then the non-span payload.  Unit feeds nothing (Rust's Hash for () is
empty).  There is no Tuple arm in the source: hashing a Tuple panics,
modelled by none.
-/
def hashF : Ty → Option (List HTok)
  | .Unit _ => some []
  | .INT _ => some [.tag 0]
  | .FLOAT _ => some [.tag 1]
  | .BOOL _ => some [.tag 2]
  | .VAR a _ => some [.tag 3, .nat a]
  | .DIM b _ => some [.tag 4, .nat b]
  | .Module a b _ => (hashOpt b).map (fun h => .tag 5 :: .str a :: h)
  | .FnArgs ts _ => (hashElems ts).map (fun h => .tag 6 :: .len ts.length :: h)
  | .FnArg n t _ => (hashF t).map (fun h => .tag 7 :: hashOptStr n ++ h)
  | .ResolvedDim a _ => some [.tag 8, .int a]
  | .FUN m n p r _ =>
    match hashF p, hashF r with
    | some hp, some hr => some (.tag 9 :: .str m :: .str n :: hp ++ hr)
    | _, _ => none
  | .TSR ts _ => (hashElems ts).map (fun h => .tag 10 :: .len ts.length :: h)
  | .UnresolvedModuleFun a b c _ => some [.tag 11, .str a, .str b, .str c]
  | .Tuple _ _ => none

/-- Concatenated hash feeds of a vector's elements. -/
def hashElems : List Ty → Option (List HTok)
  | [] => some []
  | t :: ts =>
    match hashF t, hashElems ts with
    | some h, some hs => some (h ++ hs)
    | _, _ => none

/-- Hash feed of an optional inner type: discriminant, then contents. -/
def hashOpt : Option Ty → Option (List HTok)
  | none => some [.disc false]
  | some t => (hashF t).map (fun h => .disc true :: h)
end

mutual
/-- Replace every span in a type by the dummy span (the span-blind view). -/
def erase : Ty → Ty
  | .Unit _ => .Unit spZ
  | .INT _ => .INT spZ
  | .FLOAT _ => .FLOAT spZ
  | .BOOL _ => .BOOL spZ
  | .UnresolvedModuleFun a b c _ => .UnresolvedModuleFun a b c spZ
  | .VAR a _ => .VAR a spZ
  | .DIM a _ => .DIM a spZ
  | .Tuple ts _ => .Tuple (eraseL ts) spZ
  | .Module n o _ => .Module n (eraseO o) spZ
  | .FnArgs ts _ => .FnArgs (eraseL ts) spZ
  | .FnArg n t _ => .FnArg n (erase t) spZ
  | .ResolvedDim i _ => .ResolvedDim i spZ
  | .FUN m n p r _ => .FUN m n (erase p) (erase r) spZ
  | .TSR ts _ => .TSR (eraseL ts) spZ

/-- List part of erase. -/
def eraseL : List Ty → List Ty
  | [] => []
  | t :: ts => erase t :: eraseL ts

/-- Option part of erase. -/
def eraseO : Option Ty → Option Ty
  | none => none
  | some t => some (erase t)
end

mutual
/--
Type::is_resolved, with the source's short-circuit evaluation order: a
Tsr is always resolved (its dimension list is commented out in the
source), Module without an inner type is unresolved, and the unhandled
Tuple variant panics (none).
-/
def isResolved : Ty → Option Bool
  | .Unit _ => some true
  | .INT _ => some true
  | .FLOAT _ => some true
  | .BOOL _ => some true
  | .UnresolvedModuleFun _ _ _ _ => some false
  | .VAR _ _ => some false
  | .DIM _ _ => some false
  | .Module _ (some i) _ => isResolved i
  | .Module _ none _ => some false
  | .FnArgs ts _ => isResolvedAll ts
  | .FnArg _ t _ => isResolved t
  | .ResolvedDim _ _ => some true
  | .FUN _ _ p r _ =>
    match isResolved p with
    | none => none
    | some false => some false
    | some true => isResolved r
  | .TSR _ _ => some true
  | .Tuple _ _ => none

/-- Short-circuiting all() over an iterator of is_resolved results. -/
def isResolvedAll : List Ty → Option Bool
  | [] => some true
  | t :: ts =>
    match isResolved t with
    | none => none
    | some false => some false
    | some true => isResolvedAll ts
end

mutual
/--
Is a Var, Dim, UnresolvedModuleFun or childless Module reachable through
the positions is_resolved actually inspects (FnArgs elements, FnArg
inner, FUN parameter and return, a Module's present inner type — never a
Tsr dimension list)?
-/
def reachBad : Ty → Bool
  | .VAR _ _ => true
  | .DIM _ _ => true
  | .UnresolvedModuleFun _ _ _ _ => true
  | .Module _ none _ => true
  | .Module _ (some i) _ => reachBad i
  | .FnArgs ts _ => reachBadL ts
  | .FnArg _ t _ => reachBad t
  | .FUN _ _ p r _ => reachBad p || reachBad r
  | _ => false

/-- List part of reachBad. -/
def reachBadL : List Ty → Bool
  | [] => false
  | t :: ts => reachBad t || reachBadL ts
end

mutual
/-- No Tuple node in the positions is_resolved may inspect. -/
def tupleFree : Ty → Bool
  | .Tuple _ _ => false
  | .Module _ (some i) _ => tupleFree i
  | .FnArgs ts _ => tupleFreeL ts
  | .FnArg _ t _ => tupleFree t
  | .FUN _ _ p r _ => tupleFree p && tupleFree r
  | _ => true

/-- List part of tupleFree. -/
def tupleFreeL : List Ty → Bool
  | [] => true
  | t :: ts => tupleFree t && tupleFreeL ts
end

/--
Type::first_arg_ty: index 0 of an FnArgs vector (panicking when the
vector is empty), recursion through a FUN's parameter side, None on
every other shape.
-/
def first_arg_ty : Ty → Except PanicKind (Option Ty)
  | .FnArgs [] _ => .error .indexOutOfBounds
  | .FnArgs (.FnArg _ t _ :: _) _ => .ok (some t)
  | .FnArgs (_ :: _) _ => .ok none
  | .FUN _ _ arg _ _ => first_arg_ty arg
  | _ => .ok none

/-- Is the shape FnArgs or FUN (the two recursive arms of first_arg_ty)? -/
def isFnArgsOrFUN : Ty → Bool
  | .FnArgs _ _ => true
  | .FUN _ _ _ _ _ => true
  | _ => false

/-- Erasing spans preserves the length of a vector of types. -/
def eraseL_len : ∀ ts : List Ty, (eraseL ts).length = ts.length
  | [] => rfl
  | t :: ts => by simp [eraseL, eraseL_len ts]

mutual
/-- The hash feed never looks at spans: it factors through erase. -/
def hashF_erase : ∀ t : Ty, hashF (erase t) = hashF t
  | .Unit _ => rfl
  | .INT _ => rfl
  | .FLOAT _ => rfl
  | .BOOL _ => rfl
  | .UnresolvedModuleFun _ _ _ _ => rfl
  | .VAR _ _ => rfl
  | .DIM _ _ => rfl
  | .Tuple _ _ => rfl
  | .Module n o _ => by simp [erase, hashF, hashOpt_erase o]
  | .FnArgs ts _ => by simp [erase, hashF, hashElems_erase ts, eraseL_len ts]
  | .FnArg n t _ => by simp [erase, hashF, hashF_erase t]
  | .ResolvedDim _ _ => rfl
  | .FUN m n p r _ => by simp [erase, hashF, hashF_erase p, hashF_erase r]
  | .TSR ts _ => by simp [erase, hashF, hashElems_erase ts, eraseL_len ts]

/-- List part of hashF_erase. -/
def hashElems_erase : ∀ ts : List Ty, hashElems (eraseL ts) = hashElems ts
  | [] => rfl
  | t :: ts => by simp [eraseL, hashElems, hashF_erase t, hashElems_erase ts]

/-- Option part of hashF_erase. -/
def hashOpt_erase : ∀ o : Option Ty, hashOpt (eraseO o) = hashOpt o
  | none => rfl
  | some t => by simp [eraseO, hashOpt, hashF_erase t]
end

mutual
/-- Types with the same span-erased form compare equal under eqTy. -/
def eq_of_erase : ∀ (t u : Ty), erase t = erase u → eqTy t u = true
  | .Unit _, u => fun h => by
    cases u
    case Unit s2 => rfl
    all_goals simp [erase] at h
  | .INT _, u => fun h => by
    cases u
    case INT s2 => rfl
    all_goals simp [erase] at h
  | .FLOAT _, u => fun h => by
    cases u
    case FLOAT s2 => rfl
    all_goals simp [erase] at h
  | .BOOL _, u => fun h => by
    cases u
    case BOOL s2 => rfl
    all_goals simp [erase] at h
  | .UnresolvedModuleFun a b c _, u => fun h => by
    cases u
    case UnresolvedModuleFun a2 b2 c2 s2 =>
      obtain ⟨rfl, rfl, rfl⟩ : a = a2 ∧ b = b2 ∧ c = c2 := by simpa [erase] using h
      show (a == a && b == b && c == c) = true
      simp
    all_goals simp [erase] at h
  | .VAR a _, u => fun h => by
    cases u
    case VAR b s2 =>
      obtain rfl : a = b := by simpa [erase] using h
      exact beq_self_eq_true a
    all_goals simp [erase] at h
  | .DIM a _, u => fun h => by
    cases u
    case DIM b s2 =>
      obtain rfl : a = b := by simpa [erase] using h
      exact beq_self_eq_true a
    all_goals simp [erase] at h
  | .ResolvedDim i _, u => fun h => by
    cases u
    case ResolvedDim j s2 =>
      obtain rfl : i = j := by simpa [erase] using h
      exact beq_self_eq_true i
    all_goals simp [erase] at h
  | .Tuple ts s, u => fun h => by
    cases u
    case Tuple ts2 s2 =>
      have h2 : eraseL ts = eraseL ts2 := by simpa [erase] using h
      exact eq_of_eraseL ts ts2 h2
    all_goals simp [erase] at h
  | .Module n o s, u => fun h => by
    cases u
    case Module n2 o2 s2 =>
      obtain ⟨rfl, h2⟩ : n = n2 ∧ eraseO o = eraseO o2 := by simpa [erase] using h
      show (n == n && eqOpt o o2) = true
      simp [eq_of_eraseO o o2 h2]
    all_goals simp [erase] at h
  | .FnArgs ts s, u => fun h => by
    cases u
    case FnArgs ts2 s2 =>
      have h2 : eraseL ts = eraseL ts2 := by simpa [erase] using h
      exact eq_of_eraseL ts ts2 h2
    all_goals simp [erase] at h
  | .FnArg n t s, u => fun h => by
    cases u
    case FnArg n2 t2 s2 =>
      obtain ⟨rfl, h2⟩ : n = n2 ∧ erase t = erase t2 := by simpa [erase] using h
      show (n == n && eqTy t t2) = true
      simp [eq_of_erase t t2 h2]
    all_goals simp [erase] at h
  | .FUN m n p r s, u => fun h => by
    cases u
    case FUN m2 n2 p2 r2 s2 =>
      obtain ⟨rfl, rfl, h3, h4⟩ :
          m = m2 ∧ n = n2 ∧ erase p = erase p2 ∧ erase r = erase r2 := by
        simpa [erase] using h
      show (eqTy p p2 && eqTy r r2 && (m == m) && (n == n)) = true
      simp [eq_of_erase p p2 h3, eq_of_erase r r2 h4]
    all_goals simp [erase] at h
  | .TSR ts s, u => fun h => by
    cases u
    case TSR ts2 s2 =>
      have h2 : eraseL ts = eraseL ts2 := by simpa [erase] using h
      exact eq_of_eraseL ts ts2 h2
    all_goals simp [erase] at h

/-- List part of eq_of_erase. -/
def eq_of_eraseL : ∀ (ts us : List Ty), eraseL ts = eraseL us → eqList ts us = true
  | [], [] => fun _ => rfl
  | [], _ :: _ => fun h => by simp [eraseL] at h
  | _ :: _, [] => fun h => by simp [eraseL] at h
  | t :: ts, u :: us => fun h => by
    obtain ⟨h1, h2⟩ : erase t = erase u ∧ eraseL ts = eraseL us := by
      simpa [eraseL] using h
    simp [eqList, eq_of_erase t u h1, eq_of_eraseL ts us h2]

/-- Option part of eq_of_erase. -/
def eq_of_eraseO : ∀ (o1 o2 : Option Ty), eraseO o1 = eraseO o2 → eqOpt o1 o2 = true
  | none, none => fun _ => rfl
  | none, some _ => fun h => by simp [eraseO] at h
  | some _, none => fun h => by simp [eraseO] at h
  | some t, some u => fun h =>
    eq_of_erase t u (by simpa [eraseO] using h)
end

mutual
/--
On Tuple-free types is_resolved succeeds and decides exactly the absence
of a reachable Var, Dim, UnresolvedModuleFun or childless Module, where
reachability never enters a Tsr dimension list.
-/
def isResolved_reach : ∀ t : Ty, tupleFree t = true → isResolved t = some (!reachBad t)
  | .Unit _ => fun _ => rfl
  | .INT _ => fun _ => rfl
  | .FLOAT _ => fun _ => rfl
  | .BOOL _ => fun _ => rfl
  | .UnresolvedModuleFun _ _ _ _ => fun _ => rfl
  | .VAR _ _ => fun _ => rfl
  | .DIM _ _ => fun _ => rfl
  | .Module _ (some i) _ => fun h => by
    simpa [isResolved, reachBad] using isResolved_reach i (by simpa [tupleFree] using h)
  | .Module _ none _ => fun _ => rfl
  | .FnArgs ts _ => fun h => by
    simpa [isResolved, reachBad] using isResolvedAll_reach ts (by simpa [tupleFree] using h)
  | .FnArg _ t _ => fun h => by
    simpa [isResolved, reachBad] using isResolved_reach t (by simpa [tupleFree] using h)
  | .ResolvedDim _ _ => fun _ => rfl
  | .FUN _ _ p r _ => fun h => by
    simp only [tupleFree, Bool.and_eq_true] at h
    have hp := isResolved_reach p h.1
    have hr := isResolved_reach r h.2
    cases hb : reachBad p
    · simp [isResolved, reachBad, hp, hb, hr]
    · simp [isResolved, reachBad, hp, hb]
  | .TSR _ _ => fun _ => rfl
  | .Tuple _ _ => fun h => Bool.noConfusion h

/-- List part of isResolved_reach. -/
def isResolvedAll_reach : ∀ ts : List Ty,
    tupleFreeL ts = true → isResolvedAll ts = some (!reachBadL ts)
  | [] => fun _ => rfl
  | t :: ts => fun h => by
    simp only [tupleFreeL, Bool.and_eq_true] at h
    have h1 := isResolved_reach t h.1
    have h2 := isResolvedAll_reach ts h.2
    cases hb : reachBad t
    · simp [isResolvedAll, reachBadL, h1, hb, h2]
    · simp [isResolvedAll, reachBadL, h1, hb]
end

end Typing

/--
Claim C5 (counterexample): hashing is not total on every variant: the
source Hash impl has no Tuple arm, so hashing Tuple([]) falls into the
panicking catch-all instead of producing a feed.
-/
theorem claim5_hash_tuple_counterexample :
    Typing.hashF (Typing.Ty.Tuple [] spZ) = none := rfl

/--
Claim C5 (amended): for all types differing only in their source spans
(identical span-erased forms), equality holds and the hasher feeds agree
— equality and hashing use only the variant tag and the non-span payload
— except that hashing panics on Tuple (where both sides panic alike).
-/
theorem claim5_span_irrelevance_amended :
    ∀ t u : Typing.Ty, Typing.erase t = Typing.erase u →
      Typing.eqTy t u = true ∧ Typing.hashF t = Typing.hashF u :=
  fun t u h =>
    ⟨Typing.eq_of_erase t u h,
     by rw [← Typing.hashF_erase t, h, Typing.hashF_erase u]⟩

/-- Witness for the amended claim C5 at Var(1) carried by two distinct spans. -/
theorem claim5_span_irrelevance_witness :
    Typing.eqTy (Typing.Ty.VAR 1 (0, 0)) (Typing.Ty.VAR 1 (1, 1)) = true ∧
    Typing.hashF (Typing.Ty.VAR 1 (0, 0)) = Typing.hashF (Typing.Ty.VAR 1 (1, 1)) :=
  claim5_span_irrelevance_amended (Typing.Ty.VAR 1 (0, 0)) (Typing.Ty.VAR 1 (1, 1)) rfl

/--
Claim C8 (counterexample): is_resolved(Tsr([Var 0])) returns true even
though a Var node sits inside the tensor's dimension list, so is_resolved
is not the claimed reachability test: the Tsr arm returns true without
inspecting the dimensions.
-/
theorem claim8_is_resolved_counterexample :
    Typing.isResolved (Typing.Ty.TSR [Typing.Ty.VAR 0 spZ] spZ) = some true := rfl

/--
Claim C8 (amended): on Tuple-free types (the Tuple variant panics),
is_resolved returns true iff no Var, Dim, UnresolvedModuleFun or
childless Module is reachable through FnArgs elements, FnArg inners, Fun
parameter/return and a Module's present inner type; a Tsr's dimension
list is never inspected and counts as resolved.
-/
theorem claim8_is_resolved_amended :
    ∀ t : Typing.Ty, Typing.tupleFree t = true →
      Typing.isResolved t = some (!Typing.reachBad t) :=
  Typing.isResolved_reach

/-- Witness for the amended claim C8 at FnArg(None, Var 3). -/
theorem claim8_is_resolved_amended_witness :
    Typing.isResolved (Typing.Ty.FnArg none (Typing.Ty.VAR 3 spZ) spZ) = some false :=
  (claim8_is_resolved_amended (Typing.Ty.FnArg none (Typing.Ty.VAR 3 spZ) spZ) rfl).trans rfl

/--
Claim C10: first_arg_ty returns None on every shape other than FnArgs and
Fun, and on FnArgs with an empty argument vector it does not return None:
it indexes element 0 unconditionally, reaching the out-of-bounds panic at
the public interface.
-/
theorem claim10_first_arg_ty :
    (∀ t : Typing.Ty, Typing.isFnArgsOrFUN t = false →
      Typing.first_arg_ty t = Except.ok none) ∧
    Typing.first_arg_ty (Typing.Ty.FnArgs [] spZ) =
      Except.error PanicKind.indexOutOfBounds := by
  constructor
  · intro t h
    cases t <;> first | rfl | exact Bool.noConfusion h
  · rfl

/-- Witness for claim C10 at the Int scalar type. -/
theorem claim10_first_arg_ty_witness :
    Typing.first_arg_ty (Typing.Ty.INT spZ) = Except.ok none :=
  claim10_first_arg_ty.1 (Typing.Ty.INT spZ) rfl

namespace U

/-- Every equation zipped out of two lists pairs an element of each. -/
def zipEq_mem : ∀ (d1 d2 : List Ty) (e : Equals), e ∈ zipEq d1 d2 →
    e.a ∈ d1 ∧ e.b ∈ d2
  | [], _, e => fun h => by simp [zipEq] at h
  | _ :: _, [], e => fun h => by simp [zipEq] at h
  | a :: as, b :: bs, e => fun h => by
    rcases List.mem_cons.mp h with h1 | h1
    · subst h1
      exact ⟨List.mem_cons_self a as, List.mem_cons_self b bs⟩
    · obtain ⟨ha, hb⟩ := zipEq_mem as bs e h1
      exact ⟨List.mem_cons_of_mem a ha, List.mem_cons_of_mem b hb⟩

end U

/--
Claim C6 (counterexample): a unify_var binding need not eliminate the
bound variable from the system.  substitute of subst.rs plants the
replacement verbatim and never rewrites inside a Tsr, and occurs never
looks inside a Tsr, so the circular binding {1 -> Tsr([Var 1])} passes
the occurs check, while applying it leaves Var 1 in the system — both in
the planted value and in any Tsr payload.
-/
theorem claim6_var_not_eliminated :
    TR.substitute (TR.Ty.VAR 1) 1 (TR.Ty.TSR [TR.Ty.VAR 1]) =
      some (TR.Ty.TSR [TR.Ty.VAR 1]) ∧
    TR.substitute (TR.Ty.TSR [TR.Ty.VAR 1]) 1 TR.Ty.INT =
      some (TR.Ty.TSR [TR.Ty.VAR 1]) ∧
    U.unifyVar 1 (U.Ty.TSR [U.Ty.VAR 1 spZ] spZ) =
      Except.ok [(1, U.Ty.TSR [U.Ty.VAR 1 spZ] spZ)] :=
  ⟨rfl, rfl, rfl⟩

/--
Claim C6 (amended): each unify round hands the recursion one equation
less (substitution application preserves the length of the remaining
list), and the structural arms of unify_one reduce Fun, FnArg and
zip-matched FnArgs/Tsr equations to pairwise equations over strictly
smaller types; but a unify_var binding need not eliminate the bound
variable (the occurs check and substitute skip Tsr payloads), so the
claim's measure does not establish well-foundedness.
-/
theorem claim6_measure_amended :
    (∀ (s : U.Substitution) (rest : List U.Equals),
      (rest.map (U.applyEq s)).length = rest.length) ∧
    (∀ (p1 r1 : U.Ty) (s1 : Span),
      sizeOf p1 < sizeOf (U.Ty.FUN p1 r1 s1) ∧ sizeOf r1 < sizeOf (U.Ty.FUN p1 r1 s1)) ∧
    (∀ (d1 d2 : List U.Ty) (s1 s2 : Span) (e : U.Equals), e ∈ U.zipEq d1 d2 →
      sizeOf e.a < sizeOf (U.Ty.TSR d1 s1) ∧ sizeOf e.b < sizeOf (U.Ty.TSR d2 s2)) ∧
    (∀ (v1 v2 : List U.Ty) (s1 s2 : Span) (e : U.Equals), e ∈ U.zipEq v1 v2 →
      sizeOf e.a < sizeOf (U.Ty.FnArgs v1 s1) ∧ sizeOf e.b < sizeOf (U.Ty.FnArgs v2 s2)) ∧
    (∀ (n : Option String) (t1 : U.Ty) (sA : Span),
      sizeOf t1 < sizeOf (U.Ty.FnArg n t1 sA)) := by
  refine ⟨?_, ?_, ?_, ?_, ?_⟩
  · intro s rest
    exact List.length_map rest (U.applyEq s)
  · intro p1 r1 s1
    constructor <;> (simp only [U.Ty.FUN.sizeOf_spec]; omega)
  · intro d1 d2 s1 s2 e he
    obtain ⟨ha, hb⟩ := U.zipEq_mem d1 d2 e he
    have h1 := List.sizeOf_lt_of_mem ha
    have h2 := List.sizeOf_lt_of_mem hb
    constructor <;> (simp only [U.Ty.TSR.sizeOf_spec]; omega)
  · intro v1 v2 s1 s2 e he
    obtain ⟨ha, hb⟩ := U.zipEq_mem v1 v2 e he
    have h1 := List.sizeOf_lt_of_mem ha
    have h2 := List.sizeOf_lt_of_mem hb
    constructor <;> (simp only [U.Ty.FnArgs.sizeOf_spec]; omega)
  · intro n t1 sA
    simp only [U.Ty.FnArg.sizeOf_spec]
    omega

/-- Witness for the amended claim C6 at the zip of [Dim 1] with [R 3, R 4]. -/
theorem claim6_measure_amended_witness :
    sizeOf (U.Ty.DIM 1 spZ) < sizeOf (U.Ty.TSR [U.Ty.DIM 1 spZ] spZ) ∧
    sizeOf (U.Ty.ResolvedDim 3 spZ) <
      sizeOf (U.Ty.TSR [U.Ty.ResolvedDim 3 spZ, U.Ty.ResolvedDim 4 spZ] spZ) :=
  claim6_measure_amended.2.2.1 [U.Ty.DIM 1 spZ]
    [U.Ty.ResolvedDim 3 spZ, U.Ty.ResolvedDim 4 spZ] spZ spZ
    (U.Equals.mk (U.Ty.DIM 1 spZ) (U.Ty.ResolvedDim 3 spZ)) (List.Mem.head _)
